import Mathlib

/-!
Message framing, connection state machines and server dispatch

A shallow embedding of the `net` library (`net_message.h`, `net_thrsafe_deque.h`,
`net_connection.h`, `net_server.h`) followed by theorems about it.

Conventions of the embedding

* `size_t` values are natural numbers reduced modulo `2 ^ 64`, `uint32_t` values
  modulo `2 ^ 32`.
* A `std::vector<uint8_t>` is a `List uint8_t`.
* A value of a standard-layout `DataType` is represented by its object
  representation, the `sizeof(data)` bytes that `std::memcpy` copies.
* `sizeof(header)` depends on the template parameter `T`; it is a parameter
  (`sizeofHeader`, or a field of `HeaderLayout`).
* A `std::shared_ptr<Connection<T>>` is an `Option ConnPtr`; `none` is `nullptr`.
* The handlers that the I/O context runs (posted `Send` bodies, completion handlers) run on
  its single thread, one after the other; each is a function from state to state.
* A `T&` that a function returns is a `Reference`, which records whether the object it
  designates outlives the call; copying from a reference to a destroyed object is undefined
  behaviour, written `none`.
* Bytes that the program takes from memory it does not own are not given a value: a copy out
  of the payload's storage yields `ByteSource`s, and the memory behind the buffer of
  `WriteContents` is the platform parameter `HeaderLayout.atTemporary`.
-/

namespace net

/-! ## net_message.h -/

/-- One byte of a payload. -/
abbrev uint8_t := Fin 256

/-- Number of values of `size_t`. -/
def SIZE_MOD : Nat := 2 ^ 64

/-- Number of values of `uint32_t`. -/
def UINT32_MOD : Nat := 2 ^ 32

/-- Identity of a `Connection` object (what a `shared_ptr` compares by). -/
abbrev ConnPtr := Nat

/-- The struct `MessageHeader<T>`. -/
structure MessageHeader (T : Type) where
  id : T
  size : Nat := 0
deriving DecidableEq, Repr

/-- The struct `Message<T>`. -/
structure Message (T : Type) where
  header : MessageHeader T
  contents : List uint8_t := []
deriving DecidableEq, Repr

/-- The struct `OwnedMessage<T>`. -/
structure OwnedMessage (T : Type) where
  remote : Option ConnPtr := none
  msg : Message T
deriving DecidableEq, Repr

variable {T : Type}

/-- The call `std::vector<uint8_t>::resize(n)`: truncates, or pads with value-initialised bytes. -/
def resize (v : List uint8_t) (n : Nat) : List uint8_t :=
  v.take n ++ List.replicate (n - v.length) 0

/-- The call `std::memcpy(v.data() + offset, &data, sizeof(data))` on a vector that is large enough. -/
def memcpyInto (v : List uint8_t) (offset : Nat) (data : List uint8_t) : List uint8_t :=
  v.take offset ++ data ++ v.drop (offset + data.length)

/-- Where a byte that `std::memcpy` takes from the storage of a payload comes from. -/
inductive ByteSource where
  /-- a byte of the payload, with its value -/
  | payload (b : uint8_t)
  /-- the byte found `offset` bytes from `contents.data()`, outside the payload -/
  | outside (offset : Int)
deriving DecidableEq, Repr

/-- The byte at the address `v.data() + position`, addresses being taken modulo `2 ^ 64`. -/
def readAt (v : List uint8_t) (position : Nat) : ByteSource :=
  let q := position % SIZE_MOD
  match v.get? q with
  | some b => ByteSource.payload b
  | none => ByteSource.outside (if q < SIZE_MOD / 2 then (q : Int) else (q : Int) - SIZE_MOD)

/-- The call `std::memcpy(&data, v.data() + offset, n)`: the `n` bytes it stores into `data`,
whether or not the source range lies inside the vector. -/
def memcpyRead (v : List uint8_t) (offset n : Nat) : List ByteSource :=
  (List.range n).map (fun j => readAt v (offset + j))

/-- The values of copied bytes when every one of them is a byte of the payload. -/
def payloadBytes : List ByteSource → Option (List uint8_t)
  | [] => some []
  | ByteSource.payload b :: rest =>
    match payloadBytes rest with
    | some bs => some (b :: bs)
    | none => none
  | ByteSource.outside _ :: _ => none

/-- The member `Message::size()`: `sizeof(header) + contents.size()` in `size_t`. -/
def Message.size (sizeofHeader : Nat) (msg : Message T) : Nat :=
  (sizeofHeader + msg.contents.length) % SIZE_MOD

/-- The friend `operator<<(Message<T>&, const DataType&)`; `data` is the object
representation of the argument, so `sizeof(data)` is `data.length`. -/
def Message.insert (sizeofHeader : Nat) (msg : Message T) (data : List uint8_t) : Message T :=
  let currentSize := msg.contents.length
  let contents := resize msg.contents ((currentSize + data.length) % SIZE_MOD)
  let contents := memcpyInto contents currentSize data
  let msg : Message T := { msg with contents := contents }
  { msg with header := { msg.header with size := msg.size sizeofHeader } }

/-- Outcome of one `operator>>`. -/
inductive Extracted (T : Type) where
  /-- the source range of the copy lies inside the payload: the message afterwards and the
  bytes stored into the caller's variable -/
  | ok (msg : Message T) (data : List uint8_t)
  /-- the copy, which starts at the wrapped offset `currentSize`, has taken bytes from outside
  the payload: `copied` is what it stored into the caller's variable. The behaviour of the
  program is undefined from the copy on (the statement that follows is
  `contents.resize(currentSize)` with the wrapped size) -/
  | outOfBounds (currentSize : Nat) (copied : List ByteSource)
deriving DecidableEq, Repr

/-- The offset `msg.contents.size() - sizeof(data)` computed in `size_t` by `operator>>`. -/
def Message.extractOffset (msg : Message T) (sizeofData : Nat) : Nat :=
  (msg.contents.length % SIZE_MOD + SIZE_MOD - sizeofData % SIZE_MOD) % SIZE_MOD

/-- The friend `operator>>(Message<T>&, DataType&)` for a `DataType` of `sizeofData` bytes.
The offset is computed and the copy into the caller's variable is made without any test; the
outcome is told apart afterwards by where the copied bytes came from. -/
def Message.extract (sizeofHeader : Nat) (msg : Message T) (sizeofData : Nat) : Extracted T :=
  let currentSize := msg.extractOffset sizeofData
  let copied := memcpyRead msg.contents currentSize sizeofData
  match payloadBytes copied with
  | some data =>
    let msg : Message T := { msg with contents := resize msg.contents currentSize }
    Extracted.ok { msg with header := { msg.header with size := msg.size sizeofHeader } } data
  | none => Extracted.outOfBounds currentSize copied

/-- The statement sequence `msg << f1 << f2 << ... << fn`. -/
def Message.insertAll (sizeofHeader : Nat) (msg : Message T) (fields : List (List uint8_t)) :
    Message T :=
  fields.foldl (Message.insert sizeofHeader) msg

/-- The statement sequence `msg >> x1 >> x2 >> ... >> xn` for variables of the given sizes;
returns the final message and the values read, in the order they were read. -/
def Message.extractAll (sizeofHeader : Nat) (msg : Message T) :
    List Nat → Option (Message T × List (List uint8_t))
  | [] => some (msg, [])
  | k :: ks =>
    match msg.extract sizeofHeader k with
    | Extracted.ok msg1 data =>
      match Message.extractAll sizeofHeader msg1 ks with
      | some (msg2, rest) => some (msg2, data :: rest)
      | none => none
    | Extracted.outOfBounds _ _ => none

/-- What the platform decides about the bytes of the I/O buffers. The first three fields are
the layout of `MessageHeader<T>` on the wire, the object representation that
`boost::asio::buffer(&header, sizeof(header))` exposes; it depends on `T`. The last field is the
memory that `WriteContents` hands to `async_write`: its buffer starts at the address of the
temporary that holds the pointer `contents.data()`, so `atTemporary i` is the byte found `i`
bytes from that address (the pointer itself, then whatever follows it). -/
structure HeaderLayout (T : Type) where
  sizeofHeader : Nat
  toBytes : MessageHeader T → List uint8_t
  ofBytes : List uint8_t → MessageHeader T
  atTemporary : Nat → uint8_t

/-- The `n` low-order bytes of `v`, least significant first. -/
def leBytes (n v : Nat) : List uint8_t :=
  (List.range n).map (fun i => ⟨(v / 256 ^ i) % 256, Nat.mod_lt _ (by decide)⟩)

/-- The number whose little-endian digits are `bs`. -/
def leValue (bs : List uint8_t) : Nat :=
  bs.foldr (fun b acc => b.val + 256 * acc) 0

/-- The layout of `MessageHeader<T>` for an `enum class T : uint32_t` on a little-endian LP64
platform: 4 bytes of `id`, 4 bytes of padding, 8 bytes of `size`. The tag is held as its
underlying number. The temporary of `WriteContents` holds the pointer `0x55555556b2c0` and is
followed by zero bytes. -/
def layoutLP64 : HeaderLayout Nat where
  sizeofHeader := 16
  toBytes h := leBytes 4 h.id ++ List.replicate 4 0 ++ leBytes 8 h.size
  ofBytes bs := { id := leValue (bs.take 4), size := leValue ((bs.drop 8).take 8) }
  atTemporary i := (leBytes 8 93824992326336).getD i 0

/-! ## net_thrsafe_deque.h -/

/-- A `T&` that a function hands to its caller: the object it designates, and whether that
object still exists when the caller has the reference. -/
structure Reference (α : Type) where
  target : α
  alive : Bool
deriving DecidableEq, Repr

/-- Reading the object behind a reference, as the copy in `auto x = f();` does. `none` when the
object has been destroyed: the behaviour of the program is undefined. -/
def Reference.read {α : Type} (r : Reference α) : Option α :=
  if r.alive then some r.target else none

/-- The class `ThrSafeDeque<T>`. Every member function holds the mutex for its whole body, so
each is one atomic function of the guarded `std::deque`. -/
structure ThrSafeDeque (α : Type) where
  deque : List α := []
deriving DecidableEq, Repr

namespace ThrSafeDeque

variable {α : Type}

/-- The member `front()`; `none` on an empty deque, where the source has undefined behaviour. -/
def front (q : ThrSafeDeque α) : Option α := q.deque.head?

/-- The member `back()`; `none` on an empty deque, where the source has undefined behaviour. -/
def back (q : ThrSafeDeque α) : Option α := q.deque.getLast?

/-- The member `push_back(item)`. -/
def push_back (q : ThrSafeDeque α) (item : α) : ThrSafeDeque α := { deque := q.deque ++ [item] }

/-- The member `push_front(item)`. -/
def push_front (q : ThrSafeDeque α) (item : α) : ThrSafeDeque α := { deque := item :: q.deque }

/-- The member `pop_back()`. It moves `deque.back()` into the local `t`, pops the deque and
ends with `return t;` although its return type is `T&`: the result refers to `t`, whose lifetime
ends when the function returns. `none` on an empty deque. -/
def pop_back (q : ThrSafeDeque α) : Option (Reference α × ThrSafeDeque α) :=
  match q.deque.getLast? with
  | some t => some ({ target := t, alive := false }, { deque := q.deque.dropLast })
  | none => none

/-- The member `pop_front()`. It moves `deque.front()` into the local `t`, pops the deque and
ends with `return t;` although its return type is `T&`: the result refers to `t`, whose lifetime
ends when the function returns. `none` on an empty deque. -/
def pop_front (q : ThrSafeDeque α) : Option (Reference α × ThrSafeDeque α) :=
  match q.deque with
  | t :: rest => some ({ target := t, alive := false }, { deque := rest })
  | [] => none

/-- The member `size()`. -/
def size (q : ThrSafeDeque α) : Nat := q.deque.length

/-- The member `empty()`. -/
def empty (q : ThrSafeDeque α) : Bool := q.deque.isEmpty

/-- The member `clear()`. -/
def clear (_q : ThrSafeDeque α) : ThrSafeDeque α := { deque := [] }

end ThrSafeDeque

/-! ## net_connection.h -/

/-- The enum `Connection::Owner`. -/
inductive Owner where
  | Server
  | Client
deriving DecidableEq, Repr

/-- Which function issued the asynchronous operation that is outstanding. -/
inductive AsyncOp where
  | header
  | contents
deriving DecidableEq, Repr

/-- An `async_write` whose completion handler has not run yet, with the bytes of its buffer. -/
structure PendingWrite where
  op : AsyncOp
  buffer : List uint8_t
deriving DecidableEq, Repr

/-- The class `Connection<T>`. Besides the data members it records the state of the I/O
runtime for this socket: the outstanding read, the writes that have been issued and have not
completed yet in the order they were issued, the writes that completed without error
(`writeLog`) and the bytes they put on the wire (`wire`). The queue `messagesIn` is a reference
to the owner's queue and is passed to the functions that use it. -/
structure Connection (T : Type) where
  /-- the address of the object, what `shared_from_this()` points to -/
  self : ConnPtr
  owner : Owner := Owner.Server
  id : Nat := 0
  /-- the value of `socket.is_open()` -/
  socketOpen : Bool
  messagesOut : ThrSafeDeque (Message T) := {}
  msgTemporaryIn : Message T
  pendingRead : Option AsyncOp := none
  writesOutstanding : List PendingWrite := []
  writeLog : List PendingWrite := []
  wire : List uint8_t := []
deriving DecidableEq

namespace Connection

/-- The constructor `Connection(owner, context, socket, messagesIn)`. The tag of
`msgTemporaryIn.header` is not initialised by the source; `tag0` stands for what it holds. -/
def new (self : ConnPtr) (owner : Owner) (socketOpen : Bool) (tag0 : T) : Connection T :=
  { self := self, owner := owner, socketOpen := socketOpen,
    msgTemporaryIn := { header := { id := tag0 } } }

/-- The member `IsConnected()`. -/
def IsConnected (c : Connection T) : Bool := c.socketOpen

/-- The outstanding write whose completion the I/O runtime reports next. -/
def pendingWrite (c : Connection T) : Option PendingWrite := c.writesOutstanding.head?

/-- The member `GetId()`. -/
def GetId (c : Connection T) : Nat := c.id

/-- The member `ReadHeader()` up to its `async_read` call: a read of `sizeof(header)` bytes
into `msgTemporaryIn.header` becomes outstanding. -/
def ReadHeader (c : Connection T) : Connection T :=
  { c with pendingRead := some AsyncOp.header }

/-- The member `ReadContents()` up to its `async_read` call: a read of
`msgTemporaryIn.contents.size()` bytes into `msgTemporaryIn.contents` becomes outstanding. -/
def ReadContents (c : Connection T) : Connection T :=
  { c with pendingRead := some AsyncOp.contents }

/-- The member `AddToIncomingMessageQueue()`. -/
def AddToIncomingMessageQueue (c : Connection T) (messagesIn : ThrSafeDeque (OwnedMessage T)) :
    Connection T × ThrSafeDeque (OwnedMessage T) :=
  let messagesIn :=
    if c.owner = Owner.Server then
      messagesIn.push_back { remote := some c.self, msg := c.msgTemporaryIn }
    else
      messagesIn.push_back { remote := none, msg := c.msgTemporaryIn }
  (c.ReadHeader, messagesIn)

/-- The completion handler of `ReadHeader`. `received` is `none` when `ec` reports an error
and otherwise the `sizeof(header)` bytes stored into `msgTemporaryIn.header`. -/
def onReadHeader (L : HeaderLayout T) (c : Connection T)
    (messagesIn : ThrSafeDeque (OwnedMessage T)) (received : Option (List uint8_t)) :
    Connection T × ThrSafeDeque (OwnedMessage T) :=
  let c := { c with pendingRead := none }
  match received with
  | some bytes =>
    let c := { c with msgTemporaryIn := { c.msgTemporaryIn with header := L.ofBytes bytes } }
    if c.msgTemporaryIn.header.size > 0 then
      let c := { c with msgTemporaryIn :=
        { c.msgTemporaryIn with
          contents := resize c.msgTemporaryIn.contents c.msgTemporaryIn.header.size } }
      (c.ReadContents, messagesIn)
    else
      c.AddToIncomingMessageQueue messagesIn
  | none => ({ c with socketOpen := false }, messagesIn)

/-- The completion handler of `ReadContents`. `received` is `none` when `ec` reports an error
and otherwise the bytes stored into `msgTemporaryIn.contents`. -/
def onReadContents (c : Connection T) (messagesIn : ThrSafeDeque (OwnedMessage T))
    (received : Option (List uint8_t)) : Connection T × ThrSafeDeque (OwnedMessage T) :=
  let c := { c with pendingRead := none }
  match received with
  | some bytes =>
    let c := { c with msgTemporaryIn := { c.msgTemporaryIn with contents := bytes } }
    c.AddToIncomingMessageQueue messagesIn
  | none => ({ c with socketOpen := false }, messagesIn)

/-- The member `ConnectToClient(id)`. The parameter is named like the data member, so the
assignment `id = id` stores the parameter into itself. -/
def ConnectToClient (c : Connection T) (id : Nat) : Connection T :=
  if c.owner = Owner.Server then
    if c.socketOpen then
      let id := id
      let _ := id
      c.ReadHeader
    else c
  else c

/-- The member `WriteHeader()` up to its `async_write` call: a write of the header of
`messagesOut.front()` is issued. It is only called on a non-empty queue. -/
def WriteHeader (L : HeaderLayout T) (c : Connection T) : Connection T :=
  match c.messagesOut.front with
  | some m =>
    { c with writesOutstanding :=
        c.writesOutstanding ++ [{ op := AsyncOp.header, buffer := L.toBytes m.header }] }
  | none => c

/-- The buffer `boost::asio::buffer(&messagesOut.front().contents.data(), n)` of
`WriteContents`: `n` bytes that start at the address of the temporary pointer, not at the
payload. -/
def bodyWriteBuffer (L : HeaderLayout T) (n : Nat) : List uint8_t :=
  (List.range n).map L.atTemporary

/-- The member `WriteContents()` up to its `async_write` call: a write of
`messagesOut.front().contents.size()` bytes is issued, with the buffer `bodyWriteBuffer`. -/
def WriteContents (L : HeaderLayout T) (c : Connection T) : Connection T :=
  match c.messagesOut.front with
  | some m =>
    { c with writesOutstanding :=
        c.writesOutstanding
          ++ [{ op := AsyncOp.contents, buffer := bodyWriteBuffer L m.contents.length }] }
  | none => c

/-- The statements `messagesOut.pop_front(); if (!messagesOut.empty()) WriteHeader();` that end
both write handlers. The reference that `pop_front` returns is not used. -/
def popAndContinue (L : HeaderLayout T) (c : Connection T) : Connection T :=
  match c.messagesOut.pop_front with
  | some (_, rest) =>
    let c := { c with messagesOut := rest }
    if !c.messagesOut.empty then c.WriteHeader L else c
  | none => c

/-- The completion handler of `WriteHeader`; `ec` is true when the write failed. -/
def onWriteHeader (L : HeaderLayout T) (c : Connection T) (ec : Bool) : Connection T :=
  if !ec then
    match c.messagesOut.front with
    | some m => if m.contents.length > 0 then c.WriteContents L else c.popAndContinue L
    | none => c
  else
    { c with socketOpen := false }

/-- The completion handler of `WriteContents`; `ec` is true when the write failed. -/
def onWriteContents (L : HeaderLayout T) (c : Connection T) (ec : Bool) : Connection T :=
  if !ec then c.popAndContinue L else { c with socketOpen := false }

/-- The I/O runtime completes the write that was issued first among the outstanding ones: on
success it is logged and the bytes of its buffer are on the wire; then the handler of the
operation runs. Nothing happens when no write is outstanding. -/
def completeWrite (L : HeaderLayout T) (c : Connection T) (ec : Bool) : Connection T :=
  match c.writesOutstanding with
  | [] => c
  | w :: rest =>
    let c := { c with writesOutstanding := rest,
                      writeLog := if ec then c.writeLog else c.writeLog ++ [w],
                      wire := if ec then c.wire else c.wire ++ w.buffer }
    match w.op with
    | AsyncOp.header => c.onWriteHeader L ec
    | AsyncOp.contents => c.onWriteContents L ec

/-- The body of the handler that `Send(msg)` posts to the I/O context. The handler reaches the
message through the reference it captured; `msg` is the value it finds there when it runs. -/
def Send (L : HeaderLayout T) (c : Connection T) (msg : Message T) : Connection T :=
  let writingMessage := !c.messagesOut.empty
  let c := { c with messagesOut := c.messagesOut.push_back msg }
  if !writingMessage then c.WriteHeader L else c

end Connection

/-- What the I/O thread does for the write side of one connection: it runs a posted `Send`
handler, or the completion handler of the outstanding write. -/
inductive WriteEvent (T : Type) where
  | send (msg : Message T)
  | completed (ec : Bool)

/-- One event of the write side. -/
def Connection.writeStep (L : HeaderLayout T) (c : Connection T) : WriteEvent T → Connection T
  | WriteEvent.send msg => c.Send L msg
  | WriteEvent.completed ec => c.completeWrite L ec

/-- A sequence of events of the write side. -/
def Connection.writeRun (L : HeaderLayout T) (c : Connection T) (events : List (WriteEvent T)) :
    Connection T :=
  events.foldl (Connection.writeStep L) c

/-- The messages handed to `Send` in a sequence of events, in call order. -/
def sentMessages : List (WriteEvent T) → List (Message T)
  | [] => []
  | WriteEvent.send msg :: rest => msg :: sentMessages rest
  | WriteEvent.completed _ :: rest => sentMessages rest

/-- The I/O runtime completes writes without error until none is outstanding, at most `n`
times. -/
def Connection.drain (L : HeaderLayout T) : Nat → Connection T → Connection T
  | 0, c => c
  | n + 1, c =>
    match c.pendingWrite with
    | none => c
    | some _ => Connection.drain L n (c.completeWrite L false)

/-- The bytes of one message on the wire: the header, then the payload. -/
def frame (L : HeaderLayout T) (m : Message T) : List uint8_t :=
  L.toBytes m.header ++ m.contents

/-- The frames of a sequence of messages, one after the other. -/
def frames (L : HeaderLayout T) : List (Message T) → List uint8_t
  | [] => []
  | m :: rest => frame L m ++ frames L rest

/-- The I/O runtime hands the bytes that arrived on the socket to the read side: as long as
the outstanding read has all the bytes it asked for, the read completes without error and its
handler runs. Returns the connection, the owner's queue and the bytes not consumed yet. -/
def Connection.feed (L : HeaderLayout T) :
    Nat → Connection T → ThrSafeDeque (OwnedMessage T) → List uint8_t →
      Connection T × ThrSafeDeque (OwnedMessage T) × List uint8_t
  | 0, c, messagesIn, bytes => (c, messagesIn, bytes)
  | fuel + 1, c, messagesIn, bytes =>
    match c.pendingRead with
    | none => (c, messagesIn, bytes)
    | some AsyncOp.header =>
      if L.sizeofHeader ≤ bytes.length then
        let r := c.onReadHeader L messagesIn (some (bytes.take L.sizeofHeader))
        Connection.feed L fuel r.1 r.2 (bytes.drop L.sizeofHeader)
      else (c, messagesIn, bytes)
    | some AsyncOp.contents =>
      let n := c.msgTemporaryIn.contents.length
      if n ≤ bytes.length then
        let r := c.onReadContents messagesIn (some (bytes.take n))
        Connection.feed L fuel r.1 r.2 (bytes.drop n)
      else (c, messagesIn, bytes)

/-- The bytes a connection with an idle write side puts on the wire when `Send` is called for
each of `msgs` and every write completes without error. -/
def wireOf (L : HeaderLayout T) (c : Connection T) (msgs : List (Message T)) : List uint8_t :=
  (Connection.drain L (2 * msgs.length) (msgs.foldl (Connection.Send L) c)).wire

/-- The inbound queue of the peer after its read loop, started by `ReadHeader`, has been given
`bytes`. -/
def received (L : HeaderLayout T) (peer : Connection T) (bytes : List uint8_t) :
    ThrSafeDeque (OwnedMessage T) :=
  (Connection.feed L (2 * bytes.length + 2) peer.ReadHeader {} bytes).2.1

/-! ## net_server.h -/

/-- A call that leaves the server object: `client->Send(msg)` on an entry of the connection set
(which posts the handler `Connection.Send` to the I/O context), `ConnectToClient(id)` on an
entry, or one of the virtual hooks. -/
inductive Call (T : Type) where
  | Send (client : Option ConnPtr) (msg : Message T)
  | ConnectToClient (client : Option ConnPtr) (id : Nat)
  | OnClientConnect (client : Option ConnPtr)
  | OnClientDisconnect (client : Option ConnPtr)
  | OnMessage (client : Option ConnPtr) (msg : Message T)
deriving DecidableEq, Repr

/-- The class `InterfaceServer<T>`: its data members, the `Connection` objects its pointers
refer to (`heap`), and the calls it has made so far (`trace`). -/
structure InterfaceServer (T : Type) where
  messagesIn : ThrSafeDeque (OwnedMessage T) := {}
  connections : List (Option ConnPtr) := []
  idCounter : Nat := 0
  heap : ConnPtr → Connection T
  trace : List (Call T) := []

/-- The idiom `v.erase(std::remove(v.begin(), v.end(), value), v.end())`. -/
def eraseRemove {α : Type} [DecidableEq α] (v : List α) (value : α) : List α :=
  v.filter (fun x => !decide (x = value))

namespace InterfaceServer

/-- The condition `client && client->IsConnected()`. -/
def connected (s : InterfaceServer T) (client : Option ConnPtr) : Bool :=
  match client with
  | some p => (s.heap p).IsConnected
  | none => false

/-- The accept handler of `WaitForClientConnection()` for a successful accept. `fresh` is the
address of the object `make_shared` creates, `tag0` the uninitialised tag of its receive
buffer and `accept` the value the hook `OnClientConnect` returns. -/
def onAccept (s : InterfaceServer T) (fresh : ConnPtr) (tag0 : T) (accept : Bool) :
    InterfaceServer T :=
  let newConnection : Option ConnPtr := some fresh
  let s := { s with heap := Function.update s.heap fresh (Connection.new fresh Owner.Server true tag0) }
  let s := { s with trace := s.trace ++ [Call.OnClientConnect newConnection] }
  if accept then
    let s := { s with connections := s.connections ++ [newConnection] }
    match s.connections.getLast? with
    | some (some back) =>
      { s with heap := Function.update s.heap back ((s.heap back).ConnectToClient s.idCounter),
               idCounter := (s.idCounter + 1) % UINT32_MOD,
               trace := s.trace ++ [Call.ConnectToClient (some back) s.idCounter] }
    | _ => s
  else s

/-- The member `MessageClient(client, msg)`. -/
def MessageClient (s : InterfaceServer T) (client : Option ConnPtr) (msg : Message T) :
    InterfaceServer T :=
  if s.connected client then
    { s with trace := s.trace ++ [Call.Send client msg] }
  else
    let s := { s with trace := s.trace ++ [Call.OnClientDisconnect client] }
    let client : Option ConnPtr := none
    { s with connections := eraseRemove s.connections client }

/-- State of the range-for loop of `MessageAllClients`: the entries already visited, as the
loop left them in the deque, the calls made, and the flag `invalidClientExists`. -/
structure BroadcastLoop (T : Type) where
  visited : List (Option ConnPtr) := []
  calls : List (Call T) := []
  invalidClientExists : Bool := false

/-- One iteration of the range-for loop of `MessageAllClients` on the entry `client`; in the
else branch `client.reset()` leaves a null entry in the deque. -/
def broadcastBody (s : InterfaceServer T) (msg : Message T) (ignoreClient : Option ConnPtr)
    (st : BroadcastLoop T) (client : Option ConnPtr) : BroadcastLoop T :=
  if s.connected client then
    if client ≠ ignoreClient then
      { st with visited := st.visited ++ [client], calls := st.calls ++ [Call.Send client msg] }
    else
      { st with visited := st.visited ++ [client] }
  else
    { visited := st.visited ++ [none],
      calls := st.calls ++ [Call.OnClientDisconnect client],
      invalidClientExists := true }

/-- The member `MessageAllClients(msg, ignoreClient)`. -/
def MessageAllClients (s : InterfaceServer T) (msg : Message T)
    (ignoreClient : Option ConnPtr := none) : InterfaceServer T :=
  let st := s.connections.foldl (broadcastBody s msg ignoreClient) {}
  let connections :=
    if st.invalidClientExists then eraseRemove st.visited none else st.visited
  { s with connections := connections, trace := s.trace ++ st.calls }

/-- The while loop of `Update` with `fuel` iterations left to unfold. The statement
`auto msg = messagesIn.pop_front();` copies the object behind the reference that `pop_front`
returns. `none` stands for undefined behaviour. -/
def updateLoop (maxMessages : Nat) : Nat → InterfaceServer T → Nat → Option (InterfaceServer T)
  | 0, s, _ => some s
  | fuel + 1, s, messageCount =>
    if messageCount < maxMessages && !s.messagesIn.empty then
      match s.messagesIn.pop_front with
      | some (ref, rest) =>
        match ref.read with
        | some msg =>
          let s := { s with messagesIn := rest,
                            trace := s.trace ++ [Call.OnMessage msg.remote msg.msg] }
          updateLoop maxMessages fuel s ((messageCount + 1) % SIZE_MOD)
        | none => none
      | none => none
    else some s

/-- The member `Update(maxMessages)`. Every iteration pops one message, so the loop is
unfolded once more than there are messages in the queue. -/
def Update (s : InterfaceServer T) (maxMessages : Nat := SIZE_MOD - 1) :
    Option (InterfaceServer T) :=
  updateLoop maxMessages (s.messagesIn.size + 1) s 0

end InterfaceServer

/-- The connections `Send` was called on with their message, in call order. -/
def sendCalls : List (Call T) → List (Option ConnPtr × Message T)
  | [] => []
  | Call.Send client msg :: rest => (client, msg) :: sendCalls rest
  | _ :: rest => sendCalls rest

/-- The arguments the hook `OnClientDisconnect` was called with, in call order. -/
def disconnectCalls : List (Call T) → List (Option ConnPtr)
  | [] => []
  | Call.OnClientDisconnect client :: rest => client :: disconnectCalls rest
  | _ :: rest => disconnectCalls rest

/-! ## Write-side bookkeeping used in the statements -/

/-- No event of the sequence is a write that completed with an error. -/
def noWriteFailure : List (WriteEvent T) → Bool
  | [] => true
  | WriteEvent.send _ :: rest => noWriteFailure rest
  | WriteEvent.completed ec :: rest => !ec && noWriteFailure rest

/-- The writes the write loop makes for one message: the write of its header and, when the
payload is not empty, the write that `WriteContents` issues for it. -/
def writesOf (L : HeaderLayout T) (m : Message T) : List PendingWrite :=
  { op := AsyncOp.header, buffer := L.toBytes m.header }
    :: (if m.contents.length > 0 then
          [{ op := AsyncOp.contents, buffer := Connection.bodyWriteBuffer L m.contents.length }]
        else [])

/-- The writes for a sequence of messages, one message after the other. -/
def writesOfAll (L : HeaderLayout T) : List (Message T) → List PendingWrite
  | [] => []
  | m :: rest => writesOf L m ++ writesOfAll L rest

/-- The writes for the queued messages that have not completed yet. -/
def Connection.remainingWrites (L : HeaderLayout T) (c : Connection T) : List PendingWrite :=
  match c.writesOutstanding with
  | [] => []
  | w :: _ =>
    match w.op with
    | AsyncOp.header => writesOfAll L c.messagesOut.deque
    | AsyncOp.contents => w :: writesOfAll L c.messagesOut.deque.tail

/-- Exactly one write is outstanding when the outbound queue is not empty, and it is the header
write or the body write of the front message; none is outstanding when the queue is empty. -/
def Connection.WriteInv (L : HeaderLayout T) (c : Connection T) : Prop :=
  match c.messagesOut.deque, c.writesOutstanding with
  | [], [] => True
  | m :: _, [w] =>
    w = { op := AsyncOp.header, buffer := L.toBytes m.header }
      ∨ (w = { op := AsyncOp.contents, buffer := Connection.bodyWriteBuffer L m.contents.length }
          ∧ 0 < m.contents.length)
  | _, _ => False

/-- A message of type 7 with no field. -/
def msgEmpty : Message Nat := { header := { id := 7 } }

/-- The message `msgEmpty << uint8_t(5)` on the LP64 layout. -/
def msgOneByte : Message Nat := msgEmpty.insert 16 [5]

/-- The message `msgEmpty << uint8_t(6)` on the LP64 layout: the header of `msgOneByte` with
another payload. -/
def msgOtherByte : Message Nat := msgEmpty.insert 16 [6]

/-- The message `msgEmpty << uint16_t(0x0201) << uint8_t(3)` on the LP64 layout. -/
def msgTwoFields : Message Nat := msgEmpty.insertAll 16 [[1, 2], [3]]

/-- A client-side connection with an open socket. -/
def clientConn : Connection Nat := Connection.new 1 Owner.Client true 0

/-- A server-side connection with an open socket. -/
def serverConn : Connection Nat := Connection.new 2 Owner.Server true 0

/-- Two `Send` calls before any completion, then one completion, then a third `Send`. -/
def eventsInterleaved : List (WriteEvent Nat) :=
  [WriteEvent.send msgOneByte, WriteEvent.send msgEmpty, WriteEvent.completed false,
    WriteEvent.send msgTwoFields]

/-- A server whose connection set holds the connections 1 and 2; the socket of 1 is closed,
every other socket is open. -/
def serverTwoClients : InterfaceServer Nat where
  connections := [some 1, some 2]
  heap := fun p => Connection.new p Owner.Server (p != 1) 0

/-- A server whose id counter has reached the largest `uint32_t` value. -/
def serverCounterMax : InterfaceServer Nat where
  idCounter := 4294967295
  heap := fun p => Connection.new p Owner.Server false 0

/-- A server that has not accepted any connection yet. -/
def serverFresh : InterfaceServer Nat where
  heap := fun p => Connection.new p Owner.Server false 0

/-- A server with three messages in its inbound queue. -/
def serverThreeInbound : InterfaceServer Nat where
  messagesIn := { deque := [{ remote := some 1, msg := msgOneByte },
                            { remote := some 2, msg := msgEmpty },
                            { remote := some 1, msg := msgTwoFields }] }
  heap := fun p => Connection.new p Owner.Server true 0

/-- The server that owns `peer` after the read loop of `peer` has been given `bytes`. -/
def serverAfterReceive (L : HeaderLayout T) (peer : Connection T) (bytes : List uint8_t) :
    InterfaceServer T where
  messagesIn := received L peer bytes
  connections := [some peer.self]
  heap := fun _ => peer

/-- The bytes of a frame of type 7 whose header declares 1 body byte, with its body byte, followed
by a frame of type 8 whose header declares size 0, on the LP64 layout. -/
def framesBodyThenEmpty : List uint8_t :=
  layoutLP64.toBytes { id := 7, size := 1 } ++ [5] ++ layoutLP64.toBytes { id := 8, size := 0 }

/-- Events after a failed write: two `Send` calls with a completion between them. -/
def eventsAfterFailure : List (WriteEvent Nat) :=
  [WriteEvent.send msgEmpty, WriteEvent.completed false, WriteEvent.send msgOneByte]

/-! ### Lemmas on the codec -/

theorem resize_grow (v : List uint8_t) (n : Nat) :
    resize v (v.length + n) = v ++ List.replicate n 0 := by
  simp [resize, List.take_of_length_le]

theorem memcpyInto_tail (v pad data : List uint8_t) (h : pad.length = data.length) :
    memcpyInto (v ++ pad) v.length data = v ++ data := by
  simp [memcpyInto, h]

theorem insert_contents (sizeofHeader : Nat) (msg : Message T) (data : List uint8_t)
    (h : msg.contents.length + data.length < SIZE_MOD) :
    (msg.insert sizeofHeader data).contents = msg.contents ++ data := by
  simp only [Message.insert]
  rw [Nat.mod_eq_of_lt h, resize_grow]
  exact memcpyInto_tail _ _ _ (by simp)

theorem insert_header_id (sizeofHeader : Nat) (msg : Message T) (data : List uint8_t) :
    (msg.insert sizeofHeader data).header.id = msg.header.id := rfl

theorem insert_header_size (sizeofHeader : Nat) (msg : Message T) (data : List uint8_t) :
    (msg.insert sizeofHeader data).header.size
      = (sizeofHeader + (msg.insert sizeofHeader data).contents.length) % SIZE_MOD := rfl

theorem extractOffset_fits (msg : Message T) (k : Nat) (hk : k ≤ msg.contents.length)
    (h : msg.contents.length < SIZE_MOD) : msg.extractOffset k = msg.contents.length - k := by
  have hk2 : k < SIZE_MOD := lt_of_le_of_lt hk h
  unfold Message.extractOffset
  rw [Nat.mod_eq_of_lt h, Nat.mod_eq_of_lt hk2]
  have e : msg.contents.length + SIZE_MOD - k = (msg.contents.length - k) + SIZE_MOD := by omega
  rw [e, Nat.add_mod_right]
  exact Nat.mod_eq_of_lt (by omega)

theorem payloadBytes_map (b : List uint8_t) :
    payloadBytes (b.map ByteSource.payload) = some b := by
  induction b with
  | nil => rfl
  | cons x rest ih => simp [payloadBytes, ih]

theorem readAt_inside (a b : List uint8_t) (x : uint8_t)
    (h : (a ++ x :: b).length < SIZE_MOD) :
    readAt (a ++ x :: b) a.length = ByteSource.payload x := by
  have hq : a.length % SIZE_MOD = a.length := by
    apply Nat.mod_eq_of_lt
    simp only [List.length_append, List.length_cons] at h
    omega
  simp [readAt, hq, List.getElem_append_right]

theorem memcpyRead_suffix (b : List uint8_t) :
    ∀ a : List uint8_t, (a ++ b).length < SIZE_MOD →
      memcpyRead (a ++ b) a.length b.length = b.map ByteSource.payload := by
  induction b with
  | nil => intro a _; rfl
  | cons x rest ih =>
    intro a h
    have h2 : ((a ++ [x]) ++ rest).length < SIZE_MOD := by simpa using h
    have ih2 := ih (a ++ [x]) h2
    simp only [memcpyRead, List.length_cons, List.range_succ_eq_map, List.map_cons,
      List.map_map, Nat.add_zero] at ih2 ⊢
    rw [readAt_inside a rest x h]
    congr 1
    rw [← ih2]
    apply List.map_congr_left
    intro j _
    simp only [Function.comp, List.length_append, List.length_singleton, List.append_assoc,
      List.singleton_append]
    congr 1
    omega

theorem extract_append (sizeofHeader : Nat) (msg : Message T) (v data : List uint8_t)
    (hc : msg.contents = v ++ data) (h : v.length + data.length < SIZE_MOD) :
    msg.extract sizeofHeader data.length
      = Extracted.ok
          { header := { id := msg.header.id, size := (sizeofHeader + v.length) % SIZE_MOD },
            contents := v } data := by
  have hlen : msg.contents.length = v.length + data.length := by simp [hc]
  have hoff : msg.extractOffset data.length = v.length := by
    rw [extractOffset_fits msg data.length (by omega) (by omega)]
    omega
  have hcopy : memcpyRead msg.contents v.length data.length = data.map ByteSource.payload := by
    rw [hc]
    exact memcpyRead_suffix data v (by simpa using h)
  simp only [Message.extract, hoff, hcopy, payloadBytes_map, Message.size]
  simp [hc, resize]

theorem extract_fits (sizeofHeader : Nat) (msg : Message T) (k : Nat)
    (hk : k ≤ msg.contents.length) (h : msg.contents.length < SIZE_MOD) :
    msg.extract sizeofHeader k
      = Extracted.ok
          { header := { id := msg.header.id,
                        size := (sizeofHeader + (msg.contents.length - k)) % SIZE_MOD },
            contents := msg.contents.take (msg.contents.length - k) }
          (msg.contents.drop (msg.contents.length - k)) := by
  have hd : (msg.contents.drop (msg.contents.length - k)).length = k := by
    rw [List.length_drop]; omega
  have ht : (msg.contents.take (msg.contents.length - k)).length = msg.contents.length - k := by
    rw [List.length_take]; omega
  have := extract_append sizeofHeader msg (msg.contents.take (msg.contents.length - k))
    (msg.contents.drop (msg.contents.length - k)) (List.take_append_drop _ _).symm
    (by rw [hd, ht]; omega)
  rw [hd, ht] at this
  exact this

theorem extractAll_cons (sizeofHeader : Nat) (k : Nat) (ks : List Nat) (msg : Message T) :
    Message.extractAll sizeofHeader msg (k :: ks)
      = match msg.extract sizeofHeader k with
        | Extracted.ok msg1 data =>
          match Message.extractAll sizeofHeader msg1 ks with
          | some (msg2, rest) => some (msg2, data :: rest)
          | none => none
        | Extracted.outOfBounds _ _ => none := rfl

theorem extractAll_append (sizeofHeader : Nat) (ks1 ks2 : List Nat) (msg : Message T) :
    Message.extractAll sizeofHeader msg (ks1 ++ ks2)
      = match Message.extractAll sizeofHeader msg ks1 with
        | some (m1, r1) =>
          match Message.extractAll sizeofHeader m1 ks2 with
          | some (m2, r2) => some (m2, r1 ++ r2)
          | none => none
        | none => none := by
  induction ks1 generalizing msg with
  | nil =>
    simp only [List.nil_append, Message.extractAll]
    cases Message.extractAll sizeofHeader msg ks2 with
    | none => rfl
    | some p => rfl
  | cons k ks ih =>
    rw [List.cons_append, extractAll_cons, extractAll_cons]
    cases msg.extract sizeofHeader k with
    | outOfBounds c copied => rfl
    | ok m1 d =>
      simp only
      rw [ih m1]
      cases Message.extractAll sizeofHeader m1 ks with
      | none => rfl
      | some p =>
        obtain ⟨m2, r⟩ := p
        simp only
        cases Message.extractAll sizeofHeader m2 ks2 with
        | none => rfl
        | some q => rfl

theorem insertAll_extractAll (sizeofHeader : Nat) (fields : List (List uint8_t)) :
    ∀ m : Message T, m.contents.length + (fields.map List.length).sum < SIZE_MOD →
      ∃ m1 : Message T,
        (m.insertAll sizeofHeader fields).extractAll sizeofHeader
            (fields.map List.length).reverse = some (m1, fields.reverse)
          ∧ m1.contents = m.contents ∧ m1.header.id = m.header.id := by
  induction fields with
  | nil => intro m _; exact ⟨m, rfl, rfl, rfl⟩
  | cons f fs ih =>
    intro m h
    simp only [List.map_cons, List.sum_cons] at h
    have hins : (m.insert sizeofHeader f).contents = m.contents ++ f :=
      insert_contents sizeofHeader m f (by omega)
    obtain ⟨m1, h1, hc1, hid1⟩ := ih (m.insert sizeofHeader f) (by
      rw [hins, List.length_append]; omega)
    rw [hins] at hc1
    refine ⟨{ header := { id := m1.header.id,
                          size := (sizeofHeader + m.contents.length) % SIZE_MOD },
              contents := m.contents }, ?_, rfl, ?_⟩
    · have hstep : Message.insertAll sizeofHeader m (f :: fs)
          = Message.insertAll sizeofHeader (m.insert sizeofHeader f) fs := rfl
      rw [hstep, List.map_cons, List.reverse_cons, List.reverse_cons, extractAll_append, h1]
      simp only [Message.extractAll]
      rw [extract_append sizeofHeader m1 m.contents f hc1 (by omega)]
    · exact hid1.trans (insert_header_id sizeofHeader m f)


theorem writesOfAll_append (L : HeaderLayout T) (a b : List (Message T)) :
    writesOfAll L (a ++ b) = writesOfAll L a ++ writesOfAll L b := by
  induction a with
  | nil => rfl
  | cons m rest ih => simp [writesOfAll, ih]

theorem send_wire (L : HeaderLayout T) (c : Connection T) (msg : Message T) :
    (c.Send L msg).wire = c.wire ∧ (c.Send L msg).writeLog = c.writeLog
      ∧ (c.Send L msg).socketOpen = c.socketOpen := by
  unfold Connection.Send Connection.WriteHeader
  simp only
  split
  · split <;> exact ⟨rfl, rfl, rfl⟩
  · exact ⟨rfl, rfl, rfl⟩

theorem send_deque (L : HeaderLayout T) (c : Connection T) (msg : Message T) :
    (c.Send L msg).messagesOut.deque = c.messagesOut.deque ++ [msg] := by
  unfold Connection.Send Connection.WriteHeader
  simp only
  split
  · split <;> rfl
  · rfl

theorem send_inv (L : HeaderLayout T) (c : Connection T) (msg : Message T)
    (h : c.WriteInv L) :
    (c.Send L msg).WriteInv L
      ∧ (c.Send L msg).remainingWrites L = c.remainingWrites L ++ writesOf L msg := by
  obtain ⟨self, owner, id, so, ⟨dq⟩, tmp, pr, wo, log, wire⟩ := c
  cases dq with
  | nil =>
    cases wo with
    | cons w ws => exact absurd h (by simp [Connection.WriteInv])
    | nil =>
      simp [Connection.Send, Connection.WriteHeader, ThrSafeDeque.empty, ThrSafeDeque.push_back,
        ThrSafeDeque.front, Connection.WriteInv, Connection.remainingWrites, writesOfAll]
  | cons m rest =>
    cases wo with
    | nil => exact absurd h (by simp [Connection.WriteInv])
    | cons w ws =>
      cases ws with
      | cons w2 ws2 => exact absurd h (by simp [Connection.WriteInv])
      | nil =>
        obtain ⟨op, buf⟩ := w
        cases op <;>
        simp_all [Connection.Send, Connection.WriteHeader, ThrSafeDeque.empty,
          ThrSafeDeque.push_back, ThrSafeDeque.front, Connection.WriteInv,
          Connection.remainingWrites, writesOfAll, writesOfAll_append]

theorem complete_inv (L : HeaderLayout T) (c : Connection T) (h : c.WriteInv L) :
    (c.completeWrite L false).WriteInv L
      ∧ (c.completeWrite L false).writeLog ++ (c.completeWrite L false).remainingWrites L
          = c.writeLog ++ c.remainingWrites L := by
  obtain ⟨self, owner, id, so, ⟨dq⟩, tmp, pr, wo, log, wire⟩ := c
  cases dq with
  | nil =>
    cases wo with
    | cons w ws => exact absurd h (by simp [Connection.WriteInv])
    | nil => simp [Connection.completeWrite, Connection.WriteInv, Connection.remainingWrites]
  | cons m rest =>
    cases wo with
    | nil => exact absurd h (by simp [Connection.WriteInv])
    | cons w ws =>
      cases ws with
      | cons w2 ws2 => exact absurd h (by simp [Connection.WriteInv])
      | nil =>
        obtain ⟨op, buf⟩ := w
        cases op with
        | header =>
          cases hm : m.contents with
          | cons b bs =>
            simp_all [Connection.completeWrite, Connection.onWriteHeader,
              Connection.WriteContents, ThrSafeDeque.front, Connection.WriteInv,
              Connection.remainingWrites, writesOfAll, writesOf]
          | nil =>
            cases rest with
            | nil =>
              simp_all [Connection.completeWrite, Connection.onWriteHeader,
                Connection.popAndContinue, ThrSafeDeque.pop_front, ThrSafeDeque.empty,
                ThrSafeDeque.front, Connection.WriteInv, Connection.remainingWrites,
                writesOfAll, writesOf]
            | cons m2 rest2 =>
              simp_all [Connection.completeWrite, Connection.onWriteHeader,
                Connection.popAndContinue, ThrSafeDeque.pop_front, ThrSafeDeque.empty,
                ThrSafeDeque.front, Connection.WriteInv, Connection.remainingWrites,
                writesOfAll, writesOf, Connection.WriteHeader]
        | contents =>
          cases rest with
          | nil =>
            simp_all [Connection.completeWrite, Connection.onWriteContents,
              Connection.popAndContinue, ThrSafeDeque.pop_front, ThrSafeDeque.empty,
              ThrSafeDeque.front, Connection.WriteInv, Connection.remainingWrites,
              writesOfAll, writesOf]
          | cons m2 rest2 =>
            simp_all [Connection.completeWrite, Connection.onWriteContents,
              Connection.popAndContinue, ThrSafeDeque.pop_front, ThrSafeDeque.empty,
              ThrSafeDeque.front, Connection.WriteInv, Connection.remainingWrites,
              writesOfAll, writesOf, Connection.WriteHeader]

theorem writeRun_inv (L : HeaderLayout T) (events : List (WriteEvent T)) :
    ∀ c : Connection T, c.WriteInv L → noWriteFailure events = true →
      (c.writeRun L events).WriteInv L
        ∧ (c.writeRun L events).writeLog ++ (c.writeRun L events).remainingWrites L
            = c.writeLog ++ c.remainingWrites L ++ writesOfAll L (sentMessages events) := by
  induction events with
  | nil => intro c h _; simp [Connection.writeRun, sentMessages, writesOfAll, h]
  | cons e es ih =>
    intro c h hf
    cases e with
    | send msg =>
      have hs := send_inv L c msg h
      have := ih (c.Send L msg) hs.1 (by simpa [noWriteFailure] using hf)
      refine ⟨this.1, ?_⟩
      have hr : Connection.writeRun L c (WriteEvent.send msg :: es)
          = Connection.writeRun L (c.Send L msg) es := rfl
      rw [hr, this.2, hs.2, (send_wire L c msg).2.1]
      simp [sentMessages, writesOfAll, List.append_assoc]
    | completed ec =>
      have hec : ec = false ∧ noWriteFailure es = true := by
        simpa [noWriteFailure] using hf
      obtain ⟨hec, hf2⟩ := hec
      subst hec
      have hs := complete_inv L c h
      have := ih (c.completeWrite L false) hs.1 hf2
      refine ⟨this.1, ?_⟩
      have hr : Connection.writeRun L c (WriteEvent.completed false :: es)
          = Connection.writeRun L (c.completeWrite L false) es := rfl
      rw [hr, this.2, hs.2]
      simp [sentMessages]

theorem fail_state (L : HeaderLayout T) (c : Connection T) (hinv : c.WriteInv L)
    (hp : c.pendingWrite ≠ none) :
    (c.completeWrite L true).socketOpen = false
      ∧ (c.completeWrite L true).pendingWrite = none
      ∧ (c.completeWrite L true).wire = c.wire
      ∧ (c.completeWrite L true).messagesOut.deque = c.messagesOut.deque
      ∧ c.messagesOut.deque ≠ [] := by
  obtain ⟨self, owner, id, so, ⟨dq⟩, tmp, pr, wo, log, wire⟩ := c
  cases wo with
  | nil => exact absurd rfl hp
  | cons w ws =>
    cases dq with
    | nil => exact absurd hinv (by simp [Connection.WriteInv])
    | cons m rest =>
      cases ws with
      | cons w2 ws2 => exact absurd hinv (by simp [Connection.WriteInv])
      | nil =>
        obtain ⟨op, buf⟩ := w
        cases op <;>
          simp [Connection.completeWrite, Connection.onWriteHeader, Connection.onWriteContents,
            Connection.pendingWrite]

theorem halted_run (L : HeaderLayout T) (later : List (WriteEvent T)) :
    ∀ c : Connection T, c.pendingWrite = none → c.messagesOut.deque ≠ [] →
      (c.writeRun L later).socketOpen = c.socketOpen
        ∧ (c.writeRun L later).pendingWrite = none
        ∧ (c.writeRun L later).wire = c.wire
        ∧ (c.writeRun L later).messagesOut.deque = c.messagesOut.deque ++ sentMessages later := by
  induction later with
  | nil => intro c hp _; simp [Connection.writeRun, sentMessages, hp]
  | cons e es ih =>
    intro c hp hq
    cases e with
    | send msg =>
      have hs : (c.Send L msg).pendingWrite = none := by
        obtain ⟨self, owner, id, so, ⟨dq⟩, tmp, pr, wo, log, wire⟩ := c
        cases dq with
        | nil => exact absurd rfl hq
        | cons m rest =>
          simpa [Connection.Send, ThrSafeDeque.empty, ThrSafeDeque.push_back,
            Connection.pendingWrite] using hp
      have := ih (c.Send L msg) hs (by rw [send_deque]; simp)
      have hr : Connection.writeRun L c (WriteEvent.send msg :: es)
          = Connection.writeRun L (c.Send L msg) es := rfl
      rw [hr, this.1, this.2.1, this.2.2.1, this.2.2.2, (send_wire L c msg).2.2,
        (send_wire L c msg).1, send_deque]
      simp [sentMessages]
    | completed ec =>
      have hc : c.completeWrite L ec = c := by
        have : c.writesOutstanding = [] := by
          simpa [Connection.pendingWrite, List.head?_eq_none_iff] using hp
        simp [Connection.completeWrite, this]
      have hr : Connection.writeRun L c (WriteEvent.completed ec :: es)
          = Connection.writeRun L (c.completeWrite L ec) es := rfl
      rw [hr, hc]
      simpa [sentMessages] using ih c hp hq

/-! ### Lemmas on the server -/

theorem broadcast_fold (s : InterfaceServer T) (msg : Message T) (ignoreClient : Option ConnPtr)
    (conns : List (Option ConnPtr)) :
    ∀ st : InterfaceServer.BroadcastLoop T,
      ∃ calls : List (Call T),
        (conns.foldl (InterfaceServer.broadcastBody s msg ignoreClient) st).calls
            = st.calls ++ calls
          ∧ sendCalls calls
              = (conns.filter (fun c => s.connected c && decide (c ≠ ignoreClient))).map
                  (fun c => (c, msg))
          ∧ disconnectCalls calls = conns.filter (fun c => !s.connected c)
          ∧ (conns.foldl (InterfaceServer.broadcastBody s msg ignoreClient) st).visited
              = st.visited ++ conns.map (fun c => if s.connected c then c else none)
          ∧ (conns.foldl (InterfaceServer.broadcastBody s msg ignoreClient) st).invalidClientExists
              = (st.invalidClientExists || conns.any (fun c => !s.connected c)) := by
  induction conns with
  | nil => intro st; exact ⟨[], by simp [sendCalls, disconnectCalls]⟩
  | cons c rest ih =>
    intro st
    obtain ⟨calls, h1, h2, h3, h4, h5⟩ := ih (InterfaceServer.broadcastBody s msg ignoreClient st c)
    rw [List.foldl_cons, h1, h4, h5]
    cases c with
    | none =>
      refine ⟨Call.OnClientDisconnect none :: calls, ?_⟩
      simp [InterfaceServer.broadcastBody, InterfaceServer.connected, sendCalls, disconnectCalls,
        h2, h3]
    | some p =>
      by_cases hp : (s.heap p).IsConnected = true
      · by_cases hi : some p = ignoreClient
        · subst hi
          refine ⟨calls, ?_⟩
          simp [InterfaceServer.broadcastBody, InterfaceServer.connected, hp, h2, h3]
        · refine ⟨Call.Send (some p) msg :: calls, ?_⟩
          simp [InterfaceServer.broadcastBody, InterfaceServer.connected, hp, hi, h2, h3,
            sendCalls, disconnectCalls]
      · refine ⟨Call.OnClientDisconnect (some p) :: calls, ?_⟩
        simp [InterfaceServer.broadcastBody, InterfaceServer.connected, hp, h2, h3,
          sendCalls, disconnectCalls]

theorem eraseRemove_visited (s : InterfaceServer T) (conns : List (Option ConnPtr)) :
    eraseRemove (conns.map (fun c => if s.connected c then c else none)) none
      = conns.filter (fun c => s.connected c) := by
  induction conns with
  | nil => rfl
  | cons c rest ih =>
    unfold eraseRemove at ih ⊢
    cases c with
    | none => simpa [InterfaceServer.connected] using ih
    | some p =>
      by_cases hp : (s.heap p).IsConnected = true
      · simpa [InterfaceServer.connected, hp] using ih
      · simpa [InterfaceServer.connected, hp] using ih

theorem visited_all_connected (s : InterfaceServer T) (conns : List (Option ConnPtr))
    (h : conns.any (fun c => !s.connected c) = false) :
    conns.map (fun c => if s.connected c then c else none)
      = conns.filter (fun c => s.connected c) := by
  induction conns with
  | nil => rfl
  | cons c rest ih =>
    simp only [List.any_cons, Bool.or_eq_false_iff, Bool.not_eq_false'] at h
    simp [h.1, ih h.2]

/-! ## Claims on the codec and on framing -/

/-- C1: appending the fields f1..fn to a message with `operator<<` and then extracting n fields
of the same sizes with `operator>>` in the reverse order yields fn, ..., f1, that is the
original values, and leaves the payload of the message as it was before the appends. -/
theorem insert_extract_roundtrip (sizeofHeader : Nat) (m : Message T)
    (fields : List (List uint8_t))
    (h : m.contents.length + (fields.map List.length).sum < SIZE_MOD) :
    ∃ m1 : Message T,
      (m.insertAll sizeofHeader fields).extractAll sizeofHeader
          (fields.map List.length).reverse = some (m1, fields.reverse)
        ∧ m1.contents = m.contents ∧ m1.header.id = m.header.id :=
  insertAll_extractAll sizeofHeader fields m h

theorem insert_extract_roundtrip_witness :
    msgOneByte.contents.length + (([[1, 2], [3]] : List (List uint8_t)).map List.length).sum
        < SIZE_MOD
      ∧ ∃ m1 : Message Nat,
          (msgOneByte.insertAll 16 [[1, 2], [3]]).extractAll 16
              (([[1, 2], [3]] : List (List uint8_t)).map List.length).reverse
            = some (m1, ([[1, 2], [3]] : List (List uint8_t)).reverse)
          ∧ m1.contents = msgOneByte.contents ∧ m1.header.id = msgOneByte.header.id :=
  ⟨by decide, insert_extract_roundtrip 16 msgOneByte [[1, 2], [3]] (by decide)⟩

/-- C2, evaluated: when the client sends the single message `msgOneByte`, the server's read
loop pushes nothing: it has consumed the header, waits for a body of 17 bytes and has the one
body byte that was written. When the client sends `msgOneByte` and then `msgTwoFields`, the
server pushes one message instead of two, and its body is the body byte written for the first
message followed by the header of the second. -/
theorem framing_mismatch_loses_messages :
    (received layoutLP64 serverConn (wireOf layoutLP64 clientConn [msgOneByte])).deque = []
      ∧ (Connection.feed layoutLP64 36 serverConn.ReadHeader {}
            (wireOf layoutLP64 clientConn [msgOneByte])).1.pendingRead = some AsyncOp.contents
      ∧ (Connection.feed layoutLP64 36 serverConn.ReadHeader {}
            (wireOf layoutLP64 clientConn [msgOneByte])).1.msgTemporaryIn.contents.length = 17
      ∧ (Connection.feed layoutLP64 36 serverConn.ReadHeader {}
            (wireOf layoutLP64 clientConn [msgOneByte])).2.2 = [layoutLP64.atTemporary 0]
      ∧ (received layoutLP64 serverConn
            (wireOf layoutLP64 clientConn [msgOneByte, msgTwoFields])).deque
          = [{ remote := some 2,
               msg := { header := { id := 7, size := 17 },
                        contents := [layoutLP64.atTemporary 0,
                                     7, 0, 0, 0, 0, 0, 0, 0, 19, 0, 0, 0, 0, 0, 0, 0] } }] := by
  decide

/-- C3, evaluated: for `msgOneByte` the write loop issues a body write of 1 byte
(`contents.size()`) after the header, while the read loop that received this header resizes its
buffer to 17 bytes (`header.size`) and waits for that many. -/
theorem body_length_convention_differs :
    (((clientConn.Send layoutLP64 msgOneByte).completeWrite layoutLP64 false).pendingWrite.map
        (fun w => (w.op, w.buffer.length))) = some (AsyncOp.contents, 1)
      ∧ ((serverConn.ReadHeader.onReadHeader layoutLP64 {}
            (some (layoutLP64.toBytes msgOneByte.header))).1.pendingRead = some AsyncOp.contents
        ∧ (serverConn.ReadHeader.onReadHeader layoutLP64 {}
            (some (layoutLP64.toBytes msgOneByte.header))).1.msgTemporaryIn.contents.length
          = 17) := by
  decide

/-! ## Claims on the write loop -/

/-- C4, evaluated on every platform: when the client sends `msgOneByte`, whose payload is the
byte 5, the wire holds the header followed by the byte found at the address of the temporary
pointer, where the claim has the payload byte 5; and sending `msgOtherByte`, which has the same
header and the payload byte 6, puts the same bytes on the wire, so the body on the wire is not
the body of the message. -/
theorem body_write_does_not_send_payload (L : HeaderLayout Nat) :
    wireOf L clientConn [msgOneByte] = L.toBytes msgOneByte.header ++ [L.atTemporary 0]
      ∧ frames L [msgOneByte] = L.toBytes msgOneByte.header ++ [5]
      ∧ (msgOtherByte.header = msgOneByte.header ∧ msgOtherByte.contents = [6])
      ∧ wireOf L clientConn [msgOtherByte] = wireOf L clientConn [msgOneByte]
      ∧ frames L [msgOtherByte] ≠ frames L [msgOneByte] := by
  have hf1 : frames L [msgOneByte] = L.toBytes msgOneByte.header ++ [5] := by
    simp only [frames, frame, List.append_nil]
    rfl
  have hf2 : frames L [msgOtherByte] = L.toBytes msgOneByte.header ++ [6] := by
    simp only [frames, frame, List.append_nil]
    rfl
  refine ⟨rfl, hf1, by decide, rfl, ?_⟩
  rw [hf1, hf2]
  intro h
  exact absurd (List.append_cancel_left h) (by decide)

/-! ## Claims on the header size -/

/-- C5: `operator<<` leaves the old payload in place and puts the bytes of the field after it,
and sets `header.size` to `sizeof(header)` plus the new payload length; an `operator>>` whose
field fits in the payload takes the last bytes of the payload and leaves `header.size` equal to
`sizeof(header)` plus the payload length as well. -/
theorem insert_extract_header_size (sizeofHeader : Nat) (msg : Message T) (data : List uint8_t)
    (k : Nat) (hfit : sizeofHeader + (msg.contents.length + data.length) < SIZE_MOD)
    (hk : k ≤ msg.contents.length) :
    (msg.insert sizeofHeader data).contents = msg.contents ++ data
      ∧ (msg.insert sizeofHeader data).header.size
          = sizeofHeader + (msg.insert sizeofHeader data).contents.length
      ∧ ∃ (m1 : Message T) (d : List uint8_t),
          msg.extract sizeofHeader k = Extracted.ok m1 d
            ∧ m1.contents ++ d = msg.contents ∧ d.length = k
            ∧ m1.header.size = sizeofHeader + m1.contents.length := by
  have hc : (msg.insert sizeofHeader data).contents = msg.contents ++ data :=
    insert_contents sizeofHeader msg data (by omega)
  refine ⟨hc, ?_, ?_⟩
  · rw [insert_header_size, hc, List.length_append]
    exact Nat.mod_eq_of_lt hfit
  · refine ⟨_, _, extract_fits sizeofHeader msg k hk (by omega), ?_, ?_, ?_⟩
    · exact List.take_append_drop _ _
    · rw [List.length_drop]; omega
    · have hmin : min (msg.contents.length - k) msg.contents.length
          = msg.contents.length - k := by omega
      simp only [List.length_take, hmin]
      exact Nat.mod_eq_of_lt (by omega)

theorem insert_extract_header_size_witness :
    (16 + (msgTwoFields.contents.length + ([9] : List uint8_t).length) < SIZE_MOD
        ∧ 1 ≤ msgTwoFields.contents.length)
      ∧ (msgTwoFields.insert 16 [9]).contents = msgTwoFields.contents ++ [9]
      ∧ (msgTwoFields.insert 16 [9]).header.size
          = 16 + (msgTwoFields.insert 16 [9]).contents.length
      ∧ ∃ (m1 : Message Nat) (d : List uint8_t),
          msgTwoFields.extract 16 1 = Extracted.ok m1 d
            ∧ m1.contents ++ d = msgTwoFields.contents ∧ d.length = 1
            ∧ m1.header.size = 16 + m1.contents.length :=
  ⟨by decide, insert_extract_header_size 16 msgTwoFields [9] 1 (by decide) (by decide)⟩

/-! ## Claims on the server -/

/-- C6, evaluated: `Update(2)` on an inbound queue of three messages. The reference that
`pop_front` returns for the first message designates an object that no longer exists, so the
copy `auto msg = messagesIn.pop_front();` of the first iteration has undefined behaviour and
`OnMessage` is reached for no message. -/
theorem update_reads_dangling_reference :
    serverThreeInbound.messagesIn.size = 3
      ∧ (serverThreeInbound.messagesIn.pop_front.map (fun r => (r.1.alive, r.2.size)))
          = some (false, 2)
      ∧ (serverThreeInbound.Update 2).isNone = true := by
  decide

/-- C7: `MessageAllClients` calls `Send` with the message once for each entry of the connection
set that is connected and is not the exclude target, in the order of the set, and on nothing
else; it calls `OnClientDisconnect` once for each entry that is not connected, and for no
connected entry. -/
theorem messageAll_calls (s : InterfaceServer T) (msg : Message T)
    (ignoreClient : Option ConnPtr) :
    ∃ calls : List (Call T),
      (s.MessageAllClients msg ignoreClient).trace = s.trace ++ calls
        ∧ sendCalls calls
            = (s.connections.filter
                (fun c => s.connected c && decide (c ≠ ignoreClient))).map (fun c => (c, msg))
        ∧ disconnectCalls calls = s.connections.filter (fun c => !s.connected c) := by
  obtain ⟨calls, h1, h2, h3, _, _⟩ := broadcast_fold s msg ignoreClient s.connections {}
  refine ⟨calls, ?_, h2, h3⟩
  simp only [InterfaceServer.MessageAllClients, h1, List.nil_append]

/-- C8: after `MessageAllClients` the connection set is the subsequence of the entries that
were connected, in their original order (the exclude target included when connected), and it
holds no null entry. -/
theorem messageAll_connections (s : InterfaceServer T) (msg : Message T)
    (ignoreClient : Option ConnPtr) :
    (s.MessageAllClients msg ignoreClient).connections
        = s.connections.filter (fun c => s.connected c)
      ∧ none ∉ (s.MessageAllClients msg ignoreClient).connections := by
  obtain ⟨calls, _, _, _, h4, h5⟩ := broadcast_fold s msg ignoreClient s.connections {}
  have hc : (s.MessageAllClients msg ignoreClient).connections
      = s.connections.filter (fun c => s.connected c) := by
    simp only [InterfaceServer.MessageAllClients, h4, h5, List.nil_append, Bool.false_or]
    cases hany : s.connections.any (fun c => !s.connected c) with
    | true => simpa using eraseRemove_visited s s.connections
    | false => simpa using visited_all_connected s s.connections hany
  refine ⟨hc, ?_⟩
  rw [hc]
  intro hmem
  have := (List.mem_filter.mp hmem).2
  simp [InterfaceServer.connected] at this

/-- C9, evaluated: connection 1 is in the connection set and its socket is closed;
`MessageClient` on it makes one call, `OnClientDisconnect`, and no `Send`, but the connection
set afterwards is the same as before and still holds connection 1. -/
theorem messageClient_keeps_disconnected_target :
    some 1 ∈ serverTwoClients.connections
      ∧ serverTwoClients.connected (some 1) = false
      ∧ (serverTwoClients.MessageClient (some 1) msgOneByte).trace
          = [Call.OnClientDisconnect (some 1)]
      ∧ (serverTwoClients.MessageClient (some 1) msgOneByte).connections = [some 1, some 2]
      ∧ some 1 ∈ (serverTwoClients.MessageClient (some 1) msgOneByte).connections := by
  decide

/-- C10, evaluated: a connection in Server role with an open socket reports id 0 after
`ConnectToClient(5)`; and the two connections a fresh server accepts, which are handed the
counter values 0 and 1, both report id 0. -/
theorem connectToClient_does_not_store_id :
    serverConn.owner = Owner.Server ∧ serverConn.socketOpen = true
      ∧ (serverConn.ConnectToClient 5).GetId = 0
      ∧ (((serverFresh.onAccept 10 0 true).onAccept 11 0 true).connections = [some 10, some 11]
        ∧ ((serverFresh.onAccept 10 0 true).onAccept 11 0 true).idCounter = 2
        ∧ (((serverFresh.onAccept 10 0 true).onAccept 11 0 true).heap 10).GetId = 0
        ∧ (((serverFresh.onAccept 10 0 true).onAccept 11 0 true).heap 11).GetId = 0) := by
  decide

/-! ## Claims on the accept handler, the bounds of extraction and empty messages -/

/-- C11, as amended: when `OnClientConnect` returns false the accept handler leaves the
connection set and the id counter as they were; when it returns true the connection set is the
old one with the new connection appended at its end, the handler has called `ConnectToClient`
on that connection with the old counter value, and the counter is the old one plus one modulo
`2 ^ 32`. -/
theorem accept_frame (s : InterfaceServer T) (fresh : ConnPtr) (tag0 : T) :
    ((s.onAccept fresh tag0 false).connections = s.connections
        ∧ (s.onAccept fresh tag0 false).idCounter = s.idCounter
        ∧ (s.onAccept fresh tag0 false).trace
            = s.trace ++ [Call.OnClientConnect (some fresh)])
      ∧ ((s.onAccept fresh tag0 true).connections = s.connections ++ [some fresh]
        ∧ (s.onAccept fresh tag0 true).trace
            = s.trace ++ [Call.OnClientConnect (some fresh),
                          Call.ConnectToClient (some fresh) s.idCounter]
        ∧ (s.onAccept fresh tag0 true).idCounter = (s.idCounter + 1) % UINT32_MOD) := by
  refine ⟨⟨rfl, rfl, rfl⟩, ?_⟩
  simp [InterfaceServer.onAccept]

/-- C11 as stated fails: in a server whose `uint32_t` counter holds `2 ^ 32 - 1`, an accepted
connection is handed that value and the counter is 0 afterwards, not the old value plus one. -/
theorem accept_counter_wraps :
    serverCounterMax.idCounter = 4294967295
      ∧ (serverCounterMax.onAccept 3 0 true).trace
          = [Call.OnClientConnect (some 3), Call.ConnectToClient (some 3) 4294967295]
      ∧ (serverCounterMax.onAccept 3 0 true).idCounter = 0
      ∧ (serverCounterMax.onAccept 3 0 true).idCounter ≠ serverCounterMax.idCounter + 1 := by
  decide

/-- C13, evaluated for the tag 7 on the LP64 layout, where `sizeof(header)` is 16. The message
with no appended field carries `header.size` 0 although its `size()` is 16, while a message
emptied by `operator>>` carries 16. The server's read loop pushes it with origin, type 7, size 0
and an empty body, and `Update` does not reach `OnMessage`: its copy of the popped entry reads a
reference to a destroyed object. -/
theorem empty_message_size_is_not_header_size :
    msgEmpty.header.size = 0
      ∧ msgEmpty.size 16 = 16
      ∧ msgOneByte.extract 16 1
          = Extracted.ok { header := { id := 7, size := 16 }, contents := [] } [5]
      ∧ (received layoutLP64 serverConn (wireOf layoutLP64 clientConn [msgEmpty])).deque
          = [{ remote := some 2, msg := { header := { id := 7, size := 0 }, contents := [] } }]
      ∧ ((serverAfterReceive layoutLP64 serverConn
            (wireOf layoutLP64 clientConn [msgEmpty])).Update).isNone = true := by
  decide

/-! ## Claims on the read loop and the write loop -/

/-- C15, evaluated: the read loop reads a frame whose header declares 1 body byte and then a
frame whose header declares size 0. The message it pushes for the second frame has the header
just read but carries the body byte of the first frame instead of an empty body. -/
theorem stale_body_after_empty_frame :
    (received layoutLP64 serverConn framesBodyThenEmpty).deque
      = [{ remote := some 2, msg := { header := { id := 7, size := 1 }, contents := [5] } },
         { remote := some 2, msg := { header := { id := 8, size := 0 }, contents := [5] } }] := by
  decide

/-- C17: when the outstanding write of a state reached without write failure completes with an
error, the socket is closed, and after any later sequence of `Send` calls and completions the
socket is still closed, no write is outstanding, the wire holds the same bytes as before the
failure, and the outbound queue is the queue at the time of the failure, with the failed message
at its front, followed by the messages sent since. -/
theorem write_failure_is_terminal (L : HeaderLayout T) (self : ConnPtr) (owner : Owner)
    (tag0 : T) (events later : List (WriteEvent T)) (h : noWriteFailure events = true)
    (hp : ((Connection.new self owner true tag0).writeRun L events).pendingWrite ≠ none) :
    ((((Connection.new self owner true tag0).writeRun L events).completeWrite L true).writeRun
          L later).socketOpen = false
      ∧ ((((Connection.new self owner true tag0).writeRun L events).completeWrite L
            true).writeRun L later).pendingWrite = none
      ∧ ((((Connection.new self owner true tag0).writeRun L events).completeWrite L
            true).writeRun L later).wire
          = ((Connection.new self owner true tag0).writeRun L events).wire
      ∧ ((((Connection.new self owner true tag0).writeRun L events).completeWrite L
            true).writeRun L later).messagesOut.deque
          = ((Connection.new self owner true tag0).writeRun L events).messagesOut.deque
            ++ sentMessages later
      ∧ ((Connection.new self owner true tag0).writeRun L events).messagesOut.deque ≠ [] := by
  have h0 : (Connection.new self owner true tag0).WriteInv L := by
    simp [Connection.new, Connection.WriteInv]
  have hr := writeRun_inv L events (Connection.new self owner true tag0) h0 h
  have hf := fail_state L _ hr.1 hp
  have hh := halted_run L later _ hf.2.1 (by rw [hf.2.2.2.1]; exact hf.2.2.2.2)
  refine ⟨by rw [hh.1, hf.1], hh.2.1, by rw [hh.2.2.1, hf.2.2.1], ?_, hf.2.2.2.2⟩
  rw [hh.2.2.2, hf.2.2.2.1]

theorem write_failure_is_terminal_witness :
    (noWriteFailure eventsInterleaved = true
        ∧ (clientConn.writeRun layoutLP64 eventsInterleaved).pendingWrite ≠ none)
      ∧ (((clientConn.writeRun layoutLP64 eventsInterleaved).completeWrite layoutLP64
            true).writeRun layoutLP64 eventsAfterFailure).socketOpen = false
      ∧ (((clientConn.writeRun layoutLP64 eventsInterleaved).completeWrite layoutLP64
            true).writeRun layoutLP64 eventsAfterFailure).pendingWrite = none
      ∧ (((clientConn.writeRun layoutLP64 eventsInterleaved).completeWrite layoutLP64
            true).writeRun layoutLP64 eventsAfterFailure).wire
          = (clientConn.writeRun layoutLP64 eventsInterleaved).wire
      ∧ (((clientConn.writeRun layoutLP64 eventsInterleaved).completeWrite layoutLP64
            true).writeRun layoutLP64 eventsAfterFailure).messagesOut.deque
          = (clientConn.writeRun layoutLP64 eventsInterleaved).messagesOut.deque
            ++ sentMessages eventsAfterFailure
      ∧ (clientConn.writeRun layoutLP64 eventsInterleaved).messagesOut.deque ≠ [] :=
  ⟨by decide,
    write_failure_is_terminal layoutLP64 1 Owner.Client 0 eventsInterleaved eventsAfterFailure
      (by decide) (by decide)⟩

/-- C18: the entry `AddToIncomingMessageQueue` pushes is the last entry of the owner's queue,
behind the entries that were there; its message is the one just received and its origin is the
receiving connection when the role is Server and null when the role is Client; afterwards a
header read is outstanding. Both handlers that complete a message end in this way: the handler
of a body read, and the handler of a header read whose header declares size 0. -/
theorem inbound_entry_origin (L : HeaderLayout T) (c : Connection T)
    (messagesIn : ThrSafeDeque (OwnedMessage T)) (bytes : List uint8_t) :
    ((c.AddToIncomingMessageQueue messagesIn).2.deque
          = messagesIn.deque
              ++ [{ remote := (match c.owner with
                               | Owner.Server => some c.self
                               | Owner.Client => none),
                    msg := c.msgTemporaryIn }]
        ∧ (c.AddToIncomingMessageQueue messagesIn).1.pendingRead = some AsyncOp.header)
      ∧ ((c.onReadContents messagesIn (some bytes)).2.back
            = some { remote := (match c.owner with
                                | Owner.Server => some c.self
                                | Owner.Client => none),
                     msg := { header := c.msgTemporaryIn.header, contents := bytes } }
        ∧ (c.onReadContents messagesIn (some bytes)).1.pendingRead = some AsyncOp.header)
      ∧ (if (L.ofBytes bytes).size > 0 then
          (c.onReadHeader L messagesIn (some bytes)).2 = messagesIn
            ∧ (c.onReadHeader L messagesIn (some bytes)).1.pendingRead = some AsyncOp.contents
        else
          (c.onReadHeader L messagesIn (some bytes)).2.back
              = some { remote := (match c.owner with
                                  | Owner.Server => some c.self
                                  | Owner.Client => none),
                       msg := { header := L.ofBytes bytes,
                                contents := c.msgTemporaryIn.contents } }
            ∧ (c.onReadHeader L messagesIn (some bytes)).1.pendingRead
                = some AsyncOp.header) := by
  by_cases hz : (L.ofBytes bytes).size > 0 <;> cases ho : c.owner <;>
    simp [Connection.AddToIncomingMessageQueue, Connection.onReadContents,
      Connection.onReadHeader, Connection.ReadHeader, Connection.ReadContents,
      ThrSafeDeque.push_back, ThrSafeDeque.back, ho, hz]

end net
